import Mathlib

/-!
Verification of the TuiChain blockchain core: the per-loan funding,
repayment and redemption state machine (`TuiChainLoan.sol`), and the
sell-position order book of the token market (`TuiChainMarket.sol`,
`TuiChainMarketLib.sol`).

The Solidity contracts are embedded shallowly: `uint256` values become
`Nat` (SafeMath addition and multiplication only revert on 256-bit
overflow, which none of the verified properties depend on; SafeMath
subtraction and division revert on underflow and on zero divisors, and
those checks are modelled explicitly), `require` failures and other
reverts become `Option`/`Except` failure values, and contract storage
becomes explicit state records threaded through each operation.
-/

/- ------------------------------------------------------------------ -/
/- Loan state machine (TuiChainLoan.sol)                               -/
/- ------------------------------------------------------------------ -/

/-- Phases of a loan's life cycle (`TuiChainLoan.Phase`). -/
inductive Phase where
  | Funding
  | Expired
  | Canceled
  | Active
  | Finalized
deriving DecidableEq, Repr

/-- Immutable loan configuration, fixed by the `TuiChainLoan` constructor.
`requestedValueDai` is stored in whole Dai, as in the contract (the
constructor converts the atto-Dai argument with
`_attoDaiToPositiveWholeDai`, which guarantees it is positive). -/
structure LoanConfig where
  expirationTime : Nat
  fundingFeeAttoDaiPerDai : Nat
  paymentFeeAttoDaiPerDai : Nat
  requestedValueDai : Nat
deriving DecidableEq, Repr

/-- Mutable storage of a `TuiChainLoan` contract. -/
structure LoanState where
  phase : Phase
  fundedDai : Nat
  paidDai : Nat
  attoDaiPerToken : Nat
deriving DecidableEq, Repr

/-- `TuiChainLoan._attoDaiToPositiveWholeDai`: requires the value to be a
positive multiple of `10^18` atto-Dai and converts it to whole Dai;
`none` models the `require` revert. -/
def attoDaiToPositiveWholeDai (attoDai : Nat) : Option Nat :=
  if 0 < attoDai ∧ attoDai % 10 ^ 18 = 0 then some (attoDai / 10 ^ 18) else none

/-- State immediately after the `TuiChainLoan` constructor body. -/
def initialLoanState : LoanState :=
  { phase := Phase.Funding, fundedDai := 0, paidDai := 0, attoDaiPerToken := 0 }

/-- `TuiChainLoan` constructor: requires a positive expiration delay and a
requested value that is a positive multiple of 1 Dai. -/
def mkLoan (now secondsToExpiration fundingFee paymentFee requestedValueAttoDai : Nat) :
    Option (LoanConfig × LoanState) :=
  if secondsToExpiration = 0 then none
  else
    match attoDaiToPositiveWholeDai requestedValueAttoDai with
    | none => none
    | some requestedValueDai =>
        some ({ expirationTime := now + secondsToExpiration,
                fundingFeeAttoDaiPerDai := fundingFee,
                paymentFeeAttoDaiPerDai := paymentFee,
                requestedValueDai := requestedValueDai },
              initialLoanState)

/-- `TuiChainLoan._tryExpire`: expire the loan if it is in phase Funding
and the deadline has passed. -/
def tryExpire (cfg : LoanConfig) (now : Nat) (s : LoanState) : LoanState :=
  if s.phase = Phase.Funding ∧ cfg.expirationTime ≤ now then
    { s with phase := Phase.Expired }
  else s

/-- `TuiChainLoan.cancel`: lazily expires, requires phase Funding, then
moves to Canceled. -/
def cancel (cfg : LoanConfig) (now : Nat) (s : LoanState) : Option LoanState :=
  let s := tryExpire cfg now s
  if s.phase = Phase.Funding then some { s with phase := Phase.Canceled } else none

/-- `TuiChainLoan.finalize`: requires phase Active, moves to Finalized and
fixes `attoDaiPerToken = paidDai * 1e18 / requestedValueDai` (SafeMath
division, reverting on a zero divisor). -/
def finalize (cfg : LoanConfig) (s : LoanState) : Option LoanState :=
  if s.phase = Phase.Active then
    if cfg.requestedValueDai = 0 then none
    else
      some { s with
               phase := Phase.Finalized,
               attoDaiPerToken := s.paidDai * 10 ^ 18 / cfg.requestedValueDai }
  else none

/-- `TuiChainLoan.checkExpiration`: lazily expires, requires phase Funding
or Expired, and reports whether the loan is now Expired. -/
def checkExpiration (cfg : LoanConfig) (now : Nat) (s : LoanState) :
    Option (Bool × LoanState) :=
  let s := tryExpire cfg now s
  if s.phase = Phase.Funding ∨ s.phase = Phase.Expired then
    some (decide (s.phase = Phase.Expired), s)
  else none

/-- `TuiChainLoan.provideFunds`: lazily expires, requires phase Funding,
converts the value to whole Dai, requires the new funded total not to
exceed the requested value, updates `fundedDai`, and moves to Active
exactly when the requested value is reached.  The Dai and token
transfers go to external contracts and do not touch loan storage. -/
def provideFunds (cfg : LoanConfig) (now valueAttoDai : Nat) (s : LoanState) :
    Option LoanState :=
  let s := tryExpire cfg now s
  if s.phase = Phase.Funding then
    match attoDaiToPositiveWholeDai valueAttoDai with
    | none => none
    | some valueDai =>
        if s.fundedDai + valueDai ≤ cfg.requestedValueDai then
          let s := { s with fundedDai := s.fundedDai + valueDai }
          some (if s.fundedDai = cfg.requestedValueDai then
                  { s with phase := Phase.Active }
                else s)
        else none
  else none

/-- `TuiChainLoan.withdrawFunds`: lazily expires, requires phase Funding,
Expired or Canceled, converts the value to whole Dai, and decrements
`fundedDai` (SafeMath subtraction, reverting on underflow). -/
def withdrawFunds (cfg : LoanConfig) (now valueAttoDai : Nat) (s : LoanState) :
    Option LoanState :=
  let s := tryExpire cfg now s
  if s.phase = Phase.Funding ∨ s.phase = Phase.Expired ∨ s.phase = Phase.Canceled then
    match attoDaiToPositiveWholeDai valueAttoDai with
    | none => none
    | some valueDai =>
        if valueDai ≤ s.fundedDai then
          some { s with fundedDai := s.fundedDai - valueDai }
        else none
  else none

/-- `TuiChainLoan.makePayment`: requires phase Active, converts the value
to whole Dai and increments `paidDai`. -/
def makePayment (cfg : LoanConfig) (valueAttoDai : Nat) (s : LoanState) :
    Option LoanState :=
  if s.phase = Phase.Active then
    match attoDaiToPositiveWholeDai valueAttoDai with
    | none => none
    | some valueDai => some { s with paidDai := s.paidDai + valueDai }
  else none

/-- `TuiChainLoan.redeemTokens`: requires phase Finalized and a positive
amount; burns tokens and pays Dai through external contracts, leaving
loan storage unchanged. -/
def redeemTokens (amountTokens : Nat) (s : LoanState) : Option LoanState :=
  if s.phase = Phase.Finalized ∧ 0 < amountTokens then some s else none

/-- One committed (non-reverting) public operation on a loan. -/
inductive LoanStep (cfg : LoanConfig) : LoanState → LoanState → Prop
  | provideFunds (now v : Nat) (s s' : LoanState) :
      provideFunds cfg now v s = some s' → LoanStep cfg s s'
  | withdrawFunds (now v : Nat) (s s' : LoanState) :
      withdrawFunds cfg now v s = some s' → LoanStep cfg s s'
  | makePayment (v : Nat) (s s' : LoanState) :
      makePayment cfg v s = some s' → LoanStep cfg s s'
  | redeemTokens (a : Nat) (s s' : LoanState) :
      redeemTokens a s = some s' → LoanStep cfg s s'
  | cancel (now : Nat) (s s' : LoanState) :
      cancel cfg now s = some s' → LoanStep cfg s s'
  | finalize (s s' : LoanState) :
      finalize cfg s = some s' → LoanStep cfg s s'
  | checkExpiration (now : Nat) (b : Bool) (s s' : LoanState) :
      checkExpiration cfg now s = some (b, s') → LoanStep cfg s s'

/-- Loan states reachable from the freshly constructed loan by any
sequence of committed operations. -/
def LoanReachable (cfg : LoanConfig) (s : LoanState) : Prop :=
  Relation.ReflTransGen (LoanStep cfg) initialLoanState s

/- ------------------------------------------------------------------ -/
/- Sell-position order book (TuiChainMarketLib.sol)                    -/
/- ------------------------------------------------------------------ -/

/-- `TuiChainMarketLib.SellPosition`.  Token contracts and seller
addresses are modelled as natural numbers. -/
structure SellPosition where
  token : Nat
  seller : Nat
  amountTokens : Nat
  priceNanoDaiPerToken : Nat
deriving DecidableEq, Repr

/-- `TuiChainMarketLib.SellPositions`: the dense array of positions plus
the `indices` mapping from (token, seller) to 1-based slot number, with
0 meaning absent (Solidity mappings default to 0). -/
structure SellPositions where
  values : List SellPosition
  indices : Nat → Nat → Nat

/-- Point update of a two-argument mapping, as a Solidity mapping store. -/
def update2 (f : Nat → Nat → Nat) (a b v : Nat) : Nat → Nat → Nat :=
  fun x y => if x = a ∧ y = b then v else f x y

/-- The empty `SellPositions` structure. -/
def emptySellPositions : SellPositions :=
  { values := [], indices := fun _ _ => 0 }

namespace SellPositions

/-- `TuiChainMarketLib.count`. -/
def count (self : SellPositions) : Nat :=
  self.values.length

/-- `TuiChainMarketLib.exists`. -/
def existsKey (self : SellPositions) (token seller : Nat) : Bool :=
  self.indices token seller != 0

/-- `TuiChainMarketLib.get`: `values[indices[token][seller].sub(1)]`;
`none` models the SafeMath underflow revert when the entry is 0 and the
out-of-bounds revert of the array access. -/
def get (self : SellPositions) (token seller : Nat) : Option SellPosition :=
  match self.indices token seller with
  | 0 => none
  | i + 1 => self.values[i]?

/-- Writing through the storage reference returned by
`TuiChainMarketLib.get` (the market contract mutates
`position.amountTokens` or `position.priceNanoDaiPerToken` in place). -/
def setPosition (self : SellPositions) (token seller : Nat) (p : SellPosition) :
    Option SellPositions :=
  match self.indices token seller with
  | 0 => none
  | i + 1 =>
      if i < self.values.length then
        some { self with values := self.values.set i p }
      else none

/-- `TuiChainMarketLib.add`: requires the pair to be absent, pushes the
position and maps the pair to the new array length. -/
def add (self : SellPositions) (token seller amountTokens priceNanoDaiPerToken : Nat) :
    Option SellPositions :=
  if self.indices token seller = 0 then
    some { values :=
             self.values ++
               [{ token := token, seller := seller, amountTokens := amountTokens,
                  priceNanoDaiPerToken := priceNanoDaiPerToken }],
           indices := update2 self.indices token seller (self.values.length + 1) }
  else none

/-- `TuiChainMarketLib.remove`: swap-with-last removal.  Reads
`index = indices[token][seller].sub(1)` (reverting when absent) and
`last = values[values.length - 1]`, copies `last` over the removed slot,
repoints the index entry of the moved position, pops the array, and
deletes the removed pair's entry. -/
def remove (self : SellPositions) (token seller : Nat) : Option SellPositions :=
  match self.indices token seller, self.values.getLast? with
  | 0, _ => none
  | _ + 1, none => none
  | i + 1, some last =>
      if i < self.values.length then
        some { values := (self.values.set i last).dropLast,
               indices := update2 (update2 self.indices last.token last.seller (i + 1))
                            token seller 0 }
      else none

end SellPositions

/-- The structural invariant of the order book: `indices` is exactly the
1-based inverse of the position of each (token, seller) key in
`values`. -/
def wellFormed (sp : SellPositions) : Prop :=
  (∀ i (h : i < sp.values.length),
      sp.indices (sp.values.get ⟨i, h⟩).token (sp.values.get ⟨i, h⟩).seller = i + 1) ∧
  (∀ t s, sp.indices t s ≠ 0 →
      ∃ pos, sp.values[sp.indices t s - 1]? = some pos ∧
        pos.token = t ∧ pos.seller = s)

/-- The order-book mutations performed by the market contract: `add` and
`remove` from `TuiChainMarketLib`, and the in-place amount/price writes
done through `get`'s storage reference. -/
inductive BookOp where
  | add (token seller amountTokens priceNanoDaiPerToken : Nat)
  | remove (token seller : Nat)
  | setAmount (token seller newAmount : Nat)
  | setPrice (token seller newPrice : Nat)

/-- Apply one order-book operation; a reverting operation leaves the
structure unchanged. -/
def applyBookOp (sp : SellPositions) : BookOp → SellPositions
  | BookOp.add t s a p => (sp.add t s a p).getD sp
  | BookOp.remove t s => (sp.remove t s).getD sp
  | BookOp.setAmount t s a =>
      match sp.get t s with
      | none => sp
      | some pos => (sp.setPosition t s { pos with amountTokens := a }).getD sp
  | BookOp.setPrice t s p =>
      match sp.get t s with
      | none => sp
      | some pos => (sp.setPosition t s { pos with priceNanoDaiPerToken := p }).getD sp

/-- Apply a sequence of order-book operations starting from a state. -/
def applyBookOps (sp : SellPositions) (ops : List BookOp) : SellPositions :=
  ops.foldl applyBookOp sp

/- ------------------------------------------------------------------ -/
/- Token market (TuiChainMarket.sol)                                   -/
/- ------------------------------------------------------------------ -/

/-- Revert causes of the market contract's operations, following the
spec's error taxonomy.  `TokenNotAllowed` stands for the
`"_token not allowed by the market"` require. -/
inductive MarketError where
  | InvalidAmount
  | NotFound
  | AlreadyExists
  | PriceOrFeeMismatch
  | TokenNotAllowed
  | InsufficientBalance
deriving DecidableEq, Repr

/-- Storage of a `TuiChainMarket` contract together with the balance
ledgers of the external Dai contract and of each loan-token contract.
`marketAddr` is the market contract's own address (escrowed tokens are
held there), `daiBalance a` the atto-Dai balance of address `a`, and
`tokenBalance t a` the balance of address `a` in token contract `t`. -/
structure MarketState where
  marketAddr : Nat
  feeRecipient : Nat
  feeAttoDaiPerNanoDai : Nat
  tokenIsAllowed : Nat → Bool
  sellPositions : SellPositions
  daiBalance : Nat → Nat
  tokenBalance : Nat → Nat → Nat

/-- Point update of a one-argument ledger mapping. -/
def update1 (f : Nat → Nat) (a v : Nat) : Nat → Nat :=
  fun x => if x = a then v else f x

/-- An ERC-20 balance movement: reverts when the source balance is
insufficient, otherwise debits the source and credits the destination. -/
def moveBalance (f : Nat → Nat) (src dst amt : Nat) : Except MarketError (Nat → Nat) :=
  if amt ≤ f src then
    let f := update1 f src (f src - amt)
    Except.ok (update1 f dst (f dst + amt))
  else Except.error MarketError.InsufficientBalance

/-- Dai `safeTransferFrom`/`safeTransfer` as seen by the market: moves
atto-Dai between addresses in the Dai ledger. -/
def transferDai (st : MarketState) (src dst amt : Nat) : Except MarketError MarketState :=
  match moveBalance st.daiBalance src dst amt with
  | Except.error e => Except.error e
  | Except.ok f => Except.ok { st with daiBalance := f }

/-- Loan-token `safeTransferFrom`/`safeTransfer` as seen by the market:
moves tokens of contract `token` between addresses. -/
def transferToken (st : MarketState) (token src dst amt : Nat) :
    Except MarketError MarketState :=
  match moveBalance (st.tokenBalance token) src dst amt with
  | Except.error e => Except.error e
  | Except.ok f =>
      Except.ok { st with
                    tokenBalance := fun t =>
                      if t = token then f else st.tokenBalance t }

/-- `TuiChainMarket._attoDaiToPositiveWholeNanoDai`: requires the value to
be a positive multiple of `10^9` atto-Dai and converts it to nano-Dai. -/
def attoDaiToPositiveWholeNanoDai (attoDai : Nat) : Except MarketError Nat :=
  if 0 < attoDai ∧ attoDai % 10 ^ 9 = 0 then Except.ok (attoDai / 10 ^ 9)
  else Except.error MarketError.InvalidAmount

/-- `TuiChainMarket.createSellPosition`. -/
def createSellPosition (st : MarketState) (sender token amountTokens priceAttoDaiPerToken : Nat) :
    Except MarketError MarketState :=
  if st.tokenIsAllowed token = false then Except.error MarketError.TokenNotAllowed
  else if st.sellPositions.existsKey token sender then Except.error MarketError.AlreadyExists
  else if amountTokens = 0 then Except.error MarketError.InvalidAmount
  else
    match attoDaiToPositiveWholeNanoDai priceAttoDaiPerToken with
    | Except.error e => Except.error e
    | Except.ok priceNanoDaiPerToken =>
        match st.sellPositions.add token sender amountTokens priceNanoDaiPerToken with
        | none => Except.error MarketError.AlreadyExists
        | some sp =>
            transferToken { st with sellPositions := sp } token sender st.marketAddr
              amountTokens

/-- `TuiChainMarket.removeSellPosition`: deliberately does not check the
allow-set, so sellers can always exit delisted tokens. -/
def removeSellPosition (st : MarketState) (sender token : Nat) :
    Except MarketError MarketState :=
  if st.sellPositions.existsKey token sender = false then
    Except.error MarketError.NotFound
  else
    match st.sellPositions.get token sender with
    | none => Except.error MarketError.NotFound
    | some position =>
        match st.sellPositions.remove token sender with
        | none => Except.error MarketError.NotFound
        | some sp =>
            transferToken { st with sellPositions := sp } token st.marketAddr sender
              position.amountTokens

/-- `TuiChainMarket.increaseSellPositionAmount`. -/
def increaseSellPositionAmount (st : MarketState) (sender token increaseAmount : Nat) :
    Except MarketError MarketState :=
  if st.tokenIsAllowed token = false then Except.error MarketError.TokenNotAllowed
  else if increaseAmount = 0 then Except.error MarketError.InvalidAmount
  else if st.sellPositions.existsKey token sender = false then
    Except.error MarketError.NotFound
  else
    match st.sellPositions.get token sender with
    | none => Except.error MarketError.NotFound
    | some position =>
        match st.sellPositions.setPosition token sender
            { position with amountTokens := position.amountTokens + increaseAmount } with
        | none => Except.error MarketError.NotFound
        | some sp =>
            transferToken { st with sellPositions := sp } token sender st.marketAddr
              increaseAmount

/-- `TuiChainMarket.decreaseSellPositionAmount`: decrements the amount
(SafeMath subtraction), removing the position when it reaches zero. -/
def decreaseSellPositionAmount (st : MarketState) (sender token decreaseAmount : Nat) :
    Except MarketError MarketState :=
  if st.tokenIsAllowed token = false then Except.error MarketError.TokenNotAllowed
  else if decreaseAmount = 0 then Except.error MarketError.InvalidAmount
  else if st.sellPositions.existsKey token sender = false then
    Except.error MarketError.NotFound
  else
    match st.sellPositions.get token sender with
    | none => Except.error MarketError.NotFound
    | some position =>
        if position.amountTokens < decreaseAmount then
          Except.error MarketError.InvalidAmount
        else
          match st.sellPositions.setPosition token sender
              { position with amountTokens := position.amountTokens - decreaseAmount } with
          | none => Except.error MarketError.NotFound
          | some sp =>
              match
                if position.amountTokens - decreaseAmount = 0 then sp.remove token sender
                else some sp
              with
              | none => Except.error MarketError.NotFound
              | some sp =>
                  transferToken { st with sellPositions := sp } token st.marketAddr sender
                    decreaseAmount

/-- `TuiChainMarket.updateSellPositionPrice`. -/
def updateSellPositionPrice (st : MarketState) (sender token newPriceAttoDaiPerToken : Nat) :
    Except MarketError MarketState :=
  if st.tokenIsAllowed token = false then Except.error MarketError.TokenNotAllowed
  else if st.sellPositions.existsKey token sender = false then
    Except.error MarketError.NotFound
  else
    match attoDaiToPositiveWholeNanoDai newPriceAttoDaiPerToken with
    | Except.error e => Except.error e
    | Except.ok newPriceNanoDaiPerToken =>
        match st.sellPositions.get token sender with
        | none => Except.error MarketError.NotFound
        | some position =>
            match st.sellPositions.setPosition token sender
                { position with priceNanoDaiPerToken := newPriceNanoDaiPerToken } with
            | none => Except.error MarketError.NotFound
            | some sp => Except.ok { st with sellPositions := sp }

/-- `TuiChainMarket.purchase`: checks the allow-set, a positive amount,
existence, the exact price and fee matches; then decrements (or removes)
the position, and moves `price * amount` atto-Dai from buyer to seller,
`fee * (price * amount / 1e9)` atto-Dai from buyer to fee recipient, and
`amount` tokens from escrow to the buyer. -/
def purchase (st : MarketState)
    (sender token seller amountTokens priceAttoDaiPerToken feeAttoDaiPerNanoDai : Nat) :
    Except MarketError MarketState :=
  if st.tokenIsAllowed token = false then Except.error MarketError.TokenNotAllowed
  else if amountTokens = 0 then Except.error MarketError.InvalidAmount
  else if st.sellPositions.existsKey token seller = false then
    Except.error MarketError.NotFound
  else
    match attoDaiToPositiveWholeNanoDai priceAttoDaiPerToken with
    | Except.error e => Except.error e
    | Except.ok priceNanoDaiPerToken =>
        match st.sellPositions.get token seller with
        | none => Except.error MarketError.NotFound
        | some position =>
            if position.amountTokens < amountTokens then
              Except.error MarketError.InvalidAmount
            else if priceNanoDaiPerToken ≠ position.priceNanoDaiPerToken then
              Except.error MarketError.PriceOrFeeMismatch
            else if feeAttoDaiPerNanoDai ≠ st.feeAttoDaiPerNanoDai then
              Except.error MarketError.PriceOrFeeMismatch
            else
              match st.sellPositions.setPosition token seller
                  { position with
                      amountTokens := position.amountTokens - amountTokens } with
              | none => Except.error MarketError.NotFound
              | some sp =>
                  match
                    if position.amountTokens - amountTokens = 0 then
                      sp.remove token seller
                    else some sp
                  with
                  | none => Except.error MarketError.NotFound
                  | some sp =>
                      let priceAttoDai := priceAttoDaiPerToken * amountTokens
                      let feeAttoDai :=
                        st.feeAttoDaiPerNanoDai * (priceAttoDai / 10 ^ 9)
                      match transferDai { st with sellPositions := sp } sender seller
                          priceAttoDai with
                      | Except.error e => Except.error e
                      | Except.ok st =>
                          match transferDai st sender st.feeRecipient feeAttoDai with
                          | Except.error e => Except.error e
                          | Except.ok st =>
                              transferToken st token st.marketAddr sender amountTokens

/- ------------------------------------------------------------------ -/
/- Further definitions used by the statements                          -/
/- ------------------------------------------------------------------ -/

/-- Reflexive-transitive closure of the loan phase DAG
Funding to Expired / Canceled / Active, Active to Finalized:
`phaseLe p q` holds exactly when the phase may evolve from `p` to `q`. -/
def phaseLe (p q : Phase) : Bool :=
  match p, q with
  | Phase.Funding, _ => true
  | Phase.Active, Phase.Finalized => true
  | p, q => decide (p = q)

/-- A small concrete loan configuration: expires at time 100, no fees,
requested value 1 Dai. -/
def loanCfgA : LoanConfig :=
  { expirationTime := 100, fundingFeeAttoDaiPerDai := 0,
    paymentFeeAttoDaiPerDai := 0, requestedValueDai := 1 }

/-- The loan state reached from `initialLoanState` under `loanCfgA` by
fully funding the loan (1 Dai) and then finalizing it with no payment
ever made. -/
def loanStateFinalizedNoPay : LoanState :=
  { phase := Phase.Finalized, fundedDai := 1, paidDai := 0, attoDaiPerToken := 0 }

/-- A loan configuration requesting 500 Dai, as in the spec's
finalization scenario. -/
def loanCfg500 : LoanConfig :=
  { expirationTime := 100, fundingFeeAttoDaiPerDai := 0,
    paymentFeeAttoDaiPerDai := 0, requestedValueDai := 500 }

/-- An Active loan under `loanCfg500`, fully funded, with 500 Dai of
retained principal paid. -/
def loanStateActive500 : LoanState :=
  { phase := Phase.Active, fundedDai := 500, paidDai := 500, attoDaiPerToken := 0 }

/-- Whether an `Except` computation succeeded. -/
def isOkB {ε α : Type} : Except ε α → Bool
  | Except.ok _ => true
  | Except.error _ => false

/-- A one-position order book: seller 2 offers 50 units of token 1 at
`60 * 10^9` nano-Dai (60 Dai) per token. -/
def mktBook1 : SellPositions :=
  { values := [{ token := 1, seller := 2, amountTokens := 50,
                 priceNanoDaiPerToken := 60 * 10 ^ 9 }],
    indices := update2 (fun _ _ => 0) 1 2 1 }

/-- A concrete market state for the spec's purchase scenario: token 1
allowed, fee `10^8` atto-Dai per nano-Dai (10 percent), buyer 3 holding
1000 Dai, and the 50 listed tokens escrowed at the market address 10. -/
def mktStateA : MarketState :=
  { marketAddr := 10, feeRecipient := 11, feeAttoDaiPerNanoDai := 10 ^ 8,
    tokenIsAllowed := fun t => decide (t = 1),
    sellPositions := mktBook1,
    daiBalance := fun a => if a = 3 then 1000 * 10 ^ 18 else 0,
    tokenBalance := fun t a => if t = 1 ∧ a = 10 then 50 else 0 }

/-- The same market state as `mktStateA` except that token 1 has been
removed from the allow-set. -/
def mktStateB : MarketState :=
  { mktStateA with tokenIsAllowed := fun _ => false }

/-- The state of `mktStateA` after buyer 3 purchases 5 tokens at the
matching price and fee rate. -/
def purchaseResultA : MarketState :=
  match purchase mktStateA 3 1 2 5 (60 * 10 ^ 18) (10 ^ 8) with
  | Except.ok st => st
  | Except.error _ => mktStateA

/- ------------------------------------------------------------------ -/
/- Helper lemmas: loan operations                                      -/
/- ------------------------------------------------------------------ -/

lemma attoDai_conv_spec {v d : Nat} (h : attoDaiToPositiveWholeDai v = some d) :
    0 < d ∧ d * 10 ^ 18 = v := by
  unfold attoDaiToPositiveWholeDai at h
  split at h
  · rename_i hc
    cases h
    refine ⟨Nat.div_pos (Nat.le_of_dvd hc.1 (Nat.dvd_of_mod_eq_zero hc.2)) (by norm_num), ?_⟩
    exact Nat.div_mul_cancel (Nat.dvd_of_mod_eq_zero hc.2)
  · cases h

lemma tryExpire_fundedDai (cfg : LoanConfig) (now : Nat) (s : LoanState) :
    (tryExpire cfg now s).fundedDai = s.fundedDai := by
  unfold tryExpire; split <;> rfl

lemma tryExpire_paidDai (cfg : LoanConfig) (now : Nat) (s : LoanState) :
    (tryExpire cfg now s).paidDai = s.paidDai := by
  unfold tryExpire; split <;> rfl

lemma tryExpire_attoDaiPerToken (cfg : LoanConfig) (now : Nat) (s : LoanState) :
    (tryExpire cfg now s).attoDaiPerToken = s.attoDaiPerToken := by
  unfold tryExpire; split <;> rfl

lemma tryExpire_phase (cfg : LoanConfig) (now : Nat) (s : LoanState) :
    (tryExpire cfg now s).phase = s.phase ∨
      (s.phase = Phase.Funding ∧ (tryExpire cfg now s).phase = Phase.Expired) := by
  unfold tryExpire; split
  · rename_i hc; exact Or.inr ⟨hc.1, rfl⟩
  · exact Or.inl rfl

lemma provideFunds_spec {cfg : LoanConfig} {now v : Nat} {s s' : LoanState}
    (h : provideFunds cfg now v s = some s') :
    s.phase = Phase.Funding ∧ s'.paidDai = s.paidDai ∧
      s'.attoDaiPerToken = s.attoDaiPerToken ∧
      ∃ d, attoDaiToPositiveWholeDai v = some d ∧
        s.fundedDai + d ≤ cfg.requestedValueDai ∧
        s'.fundedDai = s.fundedDai + d ∧
        ((s'.fundedDai = cfg.requestedValueDai ∧ s'.phase = Phase.Active) ∨
          (s'.fundedDai ≠ cfg.requestedValueDai ∧ s'.phase = Phase.Funding)) := by
  simp only [provideFunds] at h
  have hf := tryExpire_fundedDai cfg now s
  have hp := tryExpire_paidDai cfg now s
  have ha := tryExpire_attoDaiPerToken cfg now s
  set s1 := tryExpire cfg now s with hs1
  split at h
  · rename_i hph
    have hsph : s.phase = Phase.Funding := by
      rcases tryExpire_phase cfg now s with h' | h'
      · rw [← h', ← hs1, hph]
      · exact h'.1
    split at h
    · cases h
    · rename_i d hconv
      split at h
      · rename_i hle
        have hx := Option.some.inj h
        subst hx
        refine ⟨hsph, ?_, ?_, d, hconv, by rw [← hf]; exact hle, ?_, ?_⟩
        · split <;> simpa using hp
        · split <;> simpa using ha
        · split <;> simp [hf]
        · split
          · rename_i heq
            exact Or.inl ⟨by simp [hf] at heq ⊢; exact heq, rfl⟩
          · rename_i hne
            exact Or.inr ⟨by simp [hf] at hne ⊢; exact hne, hph⟩
      · cases h
  · cases h

lemma withdrawFunds_spec {cfg : LoanConfig} {now v : Nat} {s s' : LoanState}
    (h : withdrawFunds cfg now v s = some s') :
    (s.phase = Phase.Funding ∨ s.phase = Phase.Expired ∨ s.phase = Phase.Canceled) ∧
      (s'.phase = s.phase ∨ (s.phase = Phase.Funding ∧ s'.phase = Phase.Expired)) ∧
      (s'.phase = Phase.Funding ∨ s'.phase = Phase.Expired ∨ s'.phase = Phase.Canceled) ∧
      s'.paidDai = s.paidDai ∧ s'.attoDaiPerToken = s.attoDaiPerToken ∧
      ∃ d, attoDaiToPositiveWholeDai v = some d ∧ d ≤ s.fundedDai ∧
        s'.fundedDai = s.fundedDai - d := by
  simp only [withdrawFunds] at h
  have hf := tryExpire_fundedDai cfg now s
  have hp := tryExpire_paidDai cfg now s
  have ha := tryExpire_attoDaiPerToken cfg now s
  have hph1 := tryExpire_phase cfg now s
  set s1 := tryExpire cfg now s with hs1
  split at h
  · rename_i hph
    split at h
    · cases h
    · rename_i d hconv
      split at h
      · rename_i hle
        have hx := Option.some.inj h
        subst hx
        have hsph : s.phase = Phase.Funding ∨ s.phase = Phase.Expired ∨
            s.phase = Phase.Canceled := by
          rcases hph1 with h' | h'
          · rw [← h']; exact hph
          · exact Or.inl h'.1
        refine ⟨hsph, ?_, ?_, hp, ha, d, hconv, by rw [← hf]; exact hle, by simp [hf]⟩
        · rcases hph1 with h' | h'
          · exact Or.inl h'
          · exact Or.inr h'
        · exact hph
      · cases h
  · cases h

lemma makePayment_spec {cfg : LoanConfig} {v : Nat} {s s' : LoanState}
    (h : makePayment cfg v s = some s') :
    s.phase = Phase.Active ∧ s'.phase = Phase.Active ∧ s'.fundedDai = s.fundedDai ∧
      s'.attoDaiPerToken = s.attoDaiPerToken ∧
      ∃ d, attoDaiToPositiveWholeDai v = some d ∧ s'.paidDai = s.paidDai + d := by
  simp only [makePayment] at h
  split at h
  · rename_i hph
    split at h
    · cases h
    · rename_i d hconv
      have hx := Option.some.inj h
      subst hx
      exact ⟨hph, hph, rfl, rfl, d, hconv, rfl⟩
  · cases h

lemma redeemTokens_spec {a : Nat} {s s' : LoanState}
    (h : redeemTokens a s = some s') : s.phase = Phase.Finalized ∧ s' = s := by
  simp only [redeemTokens] at h
  split at h
  · rename_i hc
    exact ⟨hc.1, (Option.some.inj h).symm⟩
  · cases h

lemma cancel_spec {cfg : LoanConfig} {now : Nat} {s s' : LoanState}
    (h : cancel cfg now s = some s') :
    s.phase = Phase.Funding ∧ s'.phase = Phase.Canceled ∧ s'.fundedDai = s.fundedDai ∧
      s'.paidDai = s.paidDai ∧ s'.attoDaiPerToken = s.attoDaiPerToken := by
  simp only [cancel] at h
  have hf := tryExpire_fundedDai cfg now s
  have hp := tryExpire_paidDai cfg now s
  have ha := tryExpire_attoDaiPerToken cfg now s
  have hph1 := tryExpire_phase cfg now s
  set s1 := tryExpire cfg now s with hs1
  split at h
  · rename_i hph
    have hx := Option.some.inj h
    subst hx
    have hsph : s.phase = Phase.Funding := by
      rcases hph1 with h' | h'
      · rw [← h']; exact hph
      · exact h'.1
    exact ⟨hsph, rfl, hf, hp, ha⟩
  · cases h

lemma finalize_spec {cfg : LoanConfig} {s s' : LoanState}
    (h : finalize cfg s = some s') :
    s.phase = Phase.Active ∧ 0 < cfg.requestedValueDai ∧
      s'.phase = Phase.Finalized ∧ s'.fundedDai = s.fundedDai ∧
      s'.paidDai = s.paidDai ∧
      s'.attoDaiPerToken = s.paidDai * 10 ^ 18 / cfg.requestedValueDai := by
  simp only [finalize] at h
  split at h
  · rename_i hph
    split at h
    · cases h
    · rename_i hreq
      have hx := Option.some.inj h
      subst hx
      exact ⟨hph, Nat.pos_of_ne_zero hreq, rfl, rfl, rfl, rfl⟩
  · cases h

lemma checkExpiration_spec {cfg : LoanConfig} {now : Nat} {b : Bool} {s s' : LoanState}
    (h : checkExpiration cfg now s = some (b, s')) :
    s'.fundedDai = s.fundedDai ∧ s'.paidDai = s.paidDai ∧
      s'.attoDaiPerToken = s.attoDaiPerToken ∧
      (s'.phase = s.phase ∨ (s.phase = Phase.Funding ∧ s'.phase = Phase.Expired)) ∧
      (s'.phase = Phase.Funding ∨ s'.phase = Phase.Expired) := by
  simp only [checkExpiration] at h
  have hf := tryExpire_fundedDai cfg now s
  have hp := tryExpire_paidDai cfg now s
  have ha := tryExpire_attoDaiPerToken cfg now s
  have hph1 := tryExpire_phase cfg now s
  set s1 := tryExpire cfg now s with hs1
  split at h
  · rename_i hph
    have hx : s' = s1 := (congrArg Prod.snd (Option.some.inj h)).symm
    subst hx
    exact ⟨hf, hp, ha, hph1, hph⟩
  · cases h

lemma loanStep_phase_cases {cfg : LoanConfig} {s s' : LoanState} (h : LoanStep cfg s s') :
    (s'.phase = s.phase ∧ s'.attoDaiPerToken = s.attoDaiPerToken) ∨
      (s.phase = Phase.Funding ∧
        (s'.phase = Phase.Expired ∨ s'.phase = Phase.Canceled ∨ s'.phase = Phase.Active) ∧
        s'.attoDaiPerToken = s.attoDaiPerToken) ∨
      (s.phase = Phase.Active ∧ s'.phase = Phase.Finalized) := by
  cases h with
  | provideFunds now v s s' hop =>
      obtain ⟨hph, _, ha, d, _, _, _, hcase⟩ := provideFunds_spec hop
      rcases hcase with ⟨_, hA⟩ | ⟨_, hF⟩
      · exact Or.inr (Or.inl ⟨hph, Or.inr (Or.inr hA), ha⟩)
      · exact Or.inl ⟨by rw [hF, hph], ha⟩
  | withdrawFunds now v s s' hop =>
      obtain ⟨_, hcase, _, _, ha, _⟩ := withdrawFunds_spec hop
      rcases hcase with h' | ⟨hf, he⟩
      · exact Or.inl ⟨h', ha⟩
      · exact Or.inr (Or.inl ⟨hf, Or.inl he, ha⟩)
  | makePayment v s s' hop =>
      obtain ⟨hph, hph', _, ha, _⟩ := makePayment_spec hop
      exact Or.inl ⟨by rw [hph', hph], ha⟩
  | redeemTokens a s s' hop =>
      obtain ⟨_, he⟩ := redeemTokens_spec hop
      exact Or.inl ⟨by rw [he], by rw [he]⟩
  | cancel now s s' hop =>
      obtain ⟨hph, hph', _, _, ha⟩ := cancel_spec hop
      exact Or.inr (Or.inl ⟨hph, Or.inr (Or.inl hph'), ha⟩)
  | finalize s s' hop =>
      obtain ⟨hph, _, hph', _, _, _⟩ := finalize_spec hop
      exact Or.inr (Or.inr ⟨hph, hph'⟩)
  | checkExpiration now b s s' hop =>
      obtain ⟨_, _, ha, hcase, _⟩ := checkExpiration_spec hop
      rcases hcase with h' | ⟨hf, he⟩
      · exact Or.inl ⟨h', ha⟩
      · exact Or.inr (Or.inl ⟨hf, Or.inl he, ha⟩)

lemma loanStep_finalized {cfg : LoanConfig} {s s' : LoanState}
    (hfin : s.phase = Phase.Finalized) (h : LoanStep cfg s s') : s' = s := by
  cases h with
  | provideFunds now v s s' hop =>
      exact absurd (provideFunds_spec hop).1 (by rw [hfin]; decide)
  | withdrawFunds now v s s' hop =>
      rcases (withdrawFunds_spec hop).1 with h' | h' | h' <;>
        rw [hfin] at h' <;> cases h'
  | makePayment v s s' hop =>
      exact absurd (makePayment_spec hop).1 (by rw [hfin]; decide)
  | redeemTokens a s s' hop => exact (redeemTokens_spec hop).2
  | cancel now s s' hop =>
      exact absurd (cancel_spec hop).1 (by rw [hfin]; decide)
  | finalize s s' hop =>
      exact absurd (finalize_spec hop).1 (by rw [hfin]; decide)
  | checkExpiration now b s s' hop =>
      obtain ⟨_, _, _, hcase, hfe⟩ := checkExpiration_spec hop
      rcases hcase with h' | ⟨h', _⟩
      · rw [hfin] at h'
        rcases hfe with h'' | h'' <;> rw [h''] at h' <;> cases h'
      · rw [hfin] at h'; cases h'

lemma phaseLe_trans (a b c : Phase) (h1 : phaseLe a b = true) (h2 : phaseLe b c = true) :
    phaseLe a c = true := by
  revert h1 h2; cases a <;> cases b <;> cases c <;> decide

lemma loanRate_zero_inv {cfg : LoanConfig} {s : LoanState} (hs : LoanReachable cfg s)
    (hnf : s.phase ≠ Phase.Finalized) : s.attoDaiPerToken = 0 := by
  have hs' : Relation.ReflTransGen (LoanStep cfg) initialLoanState s := hs
  clear hs
  induction hs' with
  | refl => rfl
  | tail hab hbc ih =>
      rename_i b c
      rcases loanStep_phase_cases hbc with ⟨hph, ha⟩ | ⟨hbf, _, ha⟩ | ⟨_, hcf⟩
      · rw [ha]; exact ih (by rw [← hph]; exact hnf)
      · rw [ha]; exact ih (by rw [hbf]; decide)
      · exact absurd hcf hnf

/- ------------------------------------------------------------------ -/
/- Claim theorems: loan state machine                                  -/
/- ------------------------------------------------------------------ -/

/-- Claim C1 (amended): for every reachable loan state, the redemption
rate `attoDaiPerToken` is zero whenever the phase is not Finalized (so
throughout Funding, Expired, Canceled and Active), and once the phase is
Finalized no operation changes the phase or the rate again.  (The
original claim's converse — that the rate is nonzero in Finalized — is
false: `finalize` with `paidDai = 0` fixes a zero rate.) -/
theorem loan_redemptionRate_zero_outside_finalized (cfg : LoanConfig) (s : LoanState)
    (hs : LoanReachable cfg s) :
    (s.phase ≠ Phase.Finalized → s.attoDaiPerToken = 0) ∧
      (∀ s', s.phase = Phase.Finalized → LoanStep cfg s s' →
        s'.phase = Phase.Finalized ∧ s'.attoDaiPerToken = s.attoDaiPerToken) := by
  refine ⟨fun hnf => loanRate_zero_inv hs hnf, fun s' hfin hstep => ?_⟩
  have hx := loanStep_finalized hfin hstep
  subst hx
  exact ⟨hfin, rfl⟩

/-- Witness for claim C1's theorem at the initial state of a concrete
loan. -/
theorem loan_redemptionRate_zero_outside_finalized_witness :
    initialLoanState.attoDaiPerToken = 0 :=
  (loan_redemptionRate_zero_outside_finalized loanCfgA initialLoanState
      Relation.ReflTransGen.refl).1 (by decide)

/-- Claim C1 counterexample: fully funding a 1-Dai loan and finalizing it
before any payment yields a reachable state in phase Finalized whose
`attoDaiPerToken` is zero, refuting the claimed equivalence
`attoDaiPerToken = 0` iff `phase ≠ Finalized`. -/
theorem loan_redemptionRate_iff_cex :
    LoanReachable loanCfgA loanStateFinalizedNoPay ∧
      ¬(loanStateFinalizedNoPay.attoDaiPerToken = 0 ↔
          loanStateFinalizedNoPay.phase ≠ Phase.Finalized) := by
  constructor
  · have h1 : LoanStep loanCfgA initialLoanState
        { phase := Phase.Active, fundedDai := 1, paidDai := 0, attoDaiPerToken := 0 } :=
      LoanStep.provideFunds 0 (10 ^ 18) _ _ (by decide)
    have h2 : LoanStep loanCfgA
        { phase := Phase.Active, fundedDai := 1, paidDai := 0, attoDaiPerToken := 0 }
        loanStateFinalizedNoPay :=
      LoanStep.finalize _ _ (by decide)
    exact Relation.ReflTransGen.tail (Relation.ReflTransGen.single h1) h2
  · decide

lemma loanFunded_inv {cfg : LoanConfig} (hreq : 0 < cfg.requestedValueDai)
    {s : LoanState} (hs : LoanReachable cfg s) :
    s.fundedDai ≤ cfg.requestedValueDai ∧
      (s.fundedDai = cfg.requestedValueDai ↔
        (s.phase = Phase.Active ∨ s.phase = Phase.Finalized)) := by
  have hs' : Relation.ReflTransGen (LoanStep cfg) initialLoanState s := hs
  clear hs
  induction hs' with
  | refl =>
      refine ⟨Nat.zero_le _, fun h => by simp [initialLoanState] at h; omega, fun h => ?_⟩
      rcases h with h | h <;> simp [initialLoanState] at h
  | tail hab hbc ih =>
      rename_i b c
      cases hbc with
      | provideFunds now v b c hop =>
          obtain ⟨hbf, _, _, d, _, hle, hfun, hcase⟩ := provideFunds_spec hop
          refine ⟨by omega, ?_⟩
          rcases hcase with ⟨hceq, hcA⟩ | ⟨hcne, hcF⟩
          · exact ⟨fun _ => Or.inl hcA, fun _ => hceq⟩
          · refine ⟨fun h => absurd h hcne, fun h => ?_⟩
            rcases h with h | h <;> rw [hcF] at h <;> cases h
      | withdrawFunds now v b c hop =>
          obtain ⟨hbp, _, hcp, _, _, d, hconv, hdle, hfun⟩ := withdrawFunds_spec hop
          have hd := (attoDai_conv_spec hconv).1
          have hbne : b.fundedDai ≠ cfg.requestedValueDai := by
            intro heq
            rcases ih.2.mp heq with h | h <;>
              rcases hbp with h' | h' | h' <;> rw [h'] at h <;> cases h
          have hblt : b.fundedDai < cfg.requestedValueDai :=
            lt_of_le_of_ne ih.1 hbne
          refine ⟨by omega, fun h => absurd h (by omega), fun h => ?_⟩
          rcases h with h | h <;> rcases hcp with h' | h' | h' <;>
            rw [h'] at h <;> cases h
      | makePayment v b c hop =>
          obtain ⟨hbA, hcA, hfun, _, _⟩ := makePayment_spec hop
          rw [hfun]
          exact ⟨ih.1, fun _ => Or.inl hcA, fun _ => ih.2.mpr (Or.inl hbA)⟩
      | redeemTokens a b c hop =>
          rw [(redeemTokens_spec hop).2]; exact ih
      | cancel now b c hop =>
          obtain ⟨hbf, hcC, hfun, _, _⟩ := cancel_spec hop
          rw [hfun]
          have hbne : b.fundedDai ≠ cfg.requestedValueDai := by
            intro heq
            rcases ih.2.mp heq with h | h <;> rw [hbf] at h <;> cases h
          refine ⟨ih.1, fun h => absurd h hbne, fun h => ?_⟩
          rcases h with h | h <;> rw [hcC] at h <;> cases h
      | finalize b c hop =>
          obtain ⟨hbA, _, hcF, hfun, _, _⟩ := finalize_spec hop
          rw [hfun]
          exact ⟨ih.1, fun _ => Or.inr hcF, fun _ => ih.2.mpr (Or.inl hbA)⟩
      | checkExpiration now bb b c hop =>
          obtain ⟨hfun, _, _, hcase, hcp⟩ := checkExpiration_spec hop
          rw [hfun]
          have hbp : b.phase = Phase.Funding ∨ b.phase = Phase.Expired := by
            rcases hcase with h' | ⟨h', _⟩
            · rw [← h']; exact hcp
            · exact Or.inl h'
          have hbne : b.fundedDai ≠ cfg.requestedValueDai := by
            intro heq
            rcases ih.2.mp heq with h | h <;> rcases hbp with h' | h' <;>
              rw [h'] at h <;> cases h
          refine ⟨ih.1, fun h => absurd h hbne, fun h => ?_⟩
          rcases h with h | h <;> rcases hcp with h' | h' <;> rw [h'] at h <;> cases h

/-- Claim C2: for every reachable loan state, `fundedDai` equals
`requestedValueDai` exactly when the phase is Active or Finalized; and a
successful `provideFunds` call leaves the loan in phase Active exactly
when it makes `fundedDai` reach `requestedValueDai`.  The hypothesis
`0 < requestedValueDai` is guaranteed by the loan constructor. -/
theorem loan_funded_iff_active_or_finalized (cfg : LoanConfig) (s : LoanState)
    (hreq : 0 < cfg.requestedValueDai) (hs : LoanReachable cfg s) :
    (s.fundedDai = cfg.requestedValueDai ↔
        (s.phase = Phase.Active ∨ s.phase = Phase.Finalized)) ∧
      (∀ now v s', provideFunds cfg now v s = some s' →
        (s'.phase = Phase.Active ↔ s'.fundedDai = cfg.requestedValueDai)) := by
  refine ⟨(loanFunded_inv hreq hs).2, fun now v s' hop => ?_⟩
  obtain ⟨_, _, _, d, _, _, _, hcase⟩ := provideFunds_spec hop
  rcases hcase with ⟨hceq, hcA⟩ | ⟨hcne, hcF⟩
  · exact ⟨fun _ => hceq, fun _ => hcA⟩
  · refine ⟨fun h => ?_, fun h => absurd h hcne⟩
    rw [hcF] at h; cases h

/-- Witness for claim C2's theorem at the initial state of a concrete
loan. -/
theorem loan_funded_iff_active_or_finalized_witness :
    (initialLoanState.fundedDai = loanCfgA.requestedValueDai ↔
      (initialLoanState.phase = Phase.Active ∨ initialLoanState.phase = Phase.Finalized)) :=
  (loan_funded_iff_active_or_finalized loanCfgA initialLoanState (by decide)
      Relation.ReflTransGen.refl).1

/-- Claim C9: every committed loan operation either leaves the phase
unchanged or moves it along one of the edges Funding to Expired,
Funding to Canceled, Funding to Active, or Active to Finalized; and over
any sequence of committed operations the phase only moves forward along
the reflexive-transitive closure `phaseLe` of that DAG, so no execution
ever returns a loan to an earlier phase. -/
theorem loan_phase_monotone (cfg : LoanConfig) (s s' : LoanState) :
    (LoanStep cfg s s' →
        s'.phase = s.phase ∨
          (s.phase = Phase.Funding ∧ s'.phase = Phase.Expired) ∨
          (s.phase = Phase.Funding ∧ s'.phase = Phase.Canceled) ∨
          (s.phase = Phase.Funding ∧ s'.phase = Phase.Active) ∨
          (s.phase = Phase.Active ∧ s'.phase = Phase.Finalized)) ∧
      (Relation.ReflTransGen (LoanStep cfg) s s' → phaseLe s.phase s'.phase = true) := by
  constructor
  · intro h
    rcases loanStep_phase_cases h with ⟨hph, _⟩ | ⟨hbf, hcs, _⟩ | ⟨hA, hF⟩
    · exact Or.inl hph
    · rcases hcs with h' | h' | h'
      · exact Or.inr (Or.inl ⟨hbf, h'⟩)
      · exact Or.inr (Or.inr (Or.inl ⟨hbf, h'⟩))
      · exact Or.inr (Or.inr (Or.inr (Or.inl ⟨hbf, h'⟩)))
    · exact Or.inr (Or.inr (Or.inr (Or.inr ⟨hA, hF⟩)))
  · intro h
    induction h with
    | refl => cases s.phase <;> rfl
    | tail hab hbc ih =>
        rename_i b c
        have hbc2 : phaseLe b.phase c.phase = true := by
          rcases loanStep_phase_cases hbc with ⟨hph, _⟩ | ⟨hbf, hcs, _⟩ | ⟨hA, hF⟩
          · rw [hph]; cases b.phase <;> rfl
          · rw [hbf]; rfl
          · rw [hA, hF]; rfl
        exact phaseLe_trans _ _ _ ih hbc2

/-- Witness for claim C9's theorem on a concrete canceling execution. -/
theorem loan_phase_monotone_witness :
    phaseLe initialLoanState.phase
      (LoanState.mk Phase.Canceled 0 0 0).phase = true :=
  (loan_phase_monotone loanCfgA initialLoanState
      (LoanState.mk Phase.Canceled 0 0 0)).2
    (Relation.ReflTransGen.single (LoanStep.cancel 0 _ _ (by decide)))

/-- Claim C7: for every loan in phase Active (with the
constructor-guaranteed positive requested value), `finalize` succeeds
and sets `attoDaiPerToken` to exactly
`paidDai * 10^18 / requestedValueDai` (integer-truncated atto-Dai per
token), and once the loan is Finalized no operation changes its state,
so the rate never changes afterwards. -/
theorem loan_finalize_sets_rate (cfg : LoanConfig) (s : LoanState)
    (hreq : 0 < cfg.requestedValueDai) :
    (s.phase = Phase.Active →
        finalize cfg s =
          some { s with phase := Phase.Finalized,
                        attoDaiPerToken := s.paidDai * 10 ^ 18 / cfg.requestedValueDai }) ∧
      (∀ s', finalize cfg s = some s' →
          s'.attoDaiPerToken = s.paidDai * 10 ^ 18 / cfg.requestedValueDai) ∧
      (∀ s', s.phase = Phase.Finalized → LoanStep cfg s s' → s' = s) := by
  refine ⟨fun hA => ?_, fun s' h => (finalize_spec h).2.2.2.2.2,
    fun s' hfin hstep => loanStep_finalized hfin hstep⟩
  rw [finalize, if_pos hA, if_neg (Nat.pos_iff_ne_zero.mp hreq)]

/-- Witness for claim C7's theorem: the spec's finalization scenario
(requested value 500 Dai, 500 Dai paid) fixes a rate of exactly
`10^18` atto-Dai (1 Dai) per token. -/
theorem loan_finalize_sets_rate_witness :
    finalize loanCfg500 loanStateActive500 =
      some { phase := Phase.Finalized, fundedDai := 500, paidDai := 500,
             attoDaiPerToken := 10 ^ 18 } := by
  have h := (loan_finalize_sets_rate loanCfg500 loanStateActive500 (by decide)).1 (by decide)
  rw [h]
  decide

/- ------------------------------------------------------------------ -/
/- Claim theorems: fixed-point conversion                              -/
/- ------------------------------------------------------------------ -/

/-- Claim C3: for both scales used by the contracts (`10^18` for whole
Dai and `10^9` for nano-Dai), the conversion returns the exact quotient
and round-trips losslessly on every positive multiple of the scale, and
fails with an invalid-amount error on every other input. -/
theorem wholeUnit_conversion_correct (a : Nat) :
    (0 < a ∧ a % 10 ^ 18 = 0 →
        attoDaiToPositiveWholeDai a = some (a / 10 ^ 18) ∧
          a / 10 ^ 18 * 10 ^ 18 = a) ∧
      (¬(0 < a ∧ a % 10 ^ 18 = 0) → attoDaiToPositiveWholeDai a = none) ∧
      (0 < a ∧ a % 10 ^ 9 = 0 →
        attoDaiToPositiveWholeNanoDai a = Except.ok (a / 10 ^ 9) ∧
          a / 10 ^ 9 * 10 ^ 9 = a) ∧
      (¬(0 < a ∧ a % 10 ^ 9 = 0) →
        attoDaiToPositiveWholeNanoDai a = Except.error MarketError.InvalidAmount) := by
  refine ⟨fun h => ⟨?_, Nat.div_mul_cancel (Nat.dvd_of_mod_eq_zero h.2)⟩, fun h => ?_,
      fun h => ⟨?_, Nat.div_mul_cancel (Nat.dvd_of_mod_eq_zero h.2)⟩, fun h => ?_⟩
  · rw [attoDaiToPositiveWholeDai, if_pos h]
  · rw [attoDaiToPositiveWholeDai, if_neg h]
  · rw [attoDaiToPositiveWholeNanoDai, if_pos h]
  · rw [attoDaiToPositiveWholeNanoDai, if_neg h]

/-- Witness for claim C3's theorem: 3 whole Dai round-trips, and one
atto-Dai more than 7 nano-Dai is rejected. -/
theorem wholeUnit_conversion_correct_witness :
    (attoDaiToPositiveWholeDai (3 * 10 ^ 18) = some (3 * 10 ^ 18 / 10 ^ 18) ∧
        3 * 10 ^ 18 / 10 ^ 18 * 10 ^ 18 = 3 * 10 ^ 18) ∧
      attoDaiToPositiveWholeNanoDai (7 * 10 ^ 9 + 1) =
        Except.error MarketError.InvalidAmount :=
  ⟨(wholeUnit_conversion_correct (3 * 10 ^ 18)).1 (by norm_num),
   (wholeUnit_conversion_correct (7 * 10 ^ 9 + 1)).2.2.2 (by norm_num)⟩

/- ------------------------------------------------------------------ -/
/- Helper lemmas: order book                                           -/
/- ------------------------------------------------------------------ -/

lemma getElem?_dropLast_of_lt {α : Type} (l : List α) (i : Nat) (h : i < l.length - 1) :
    l.dropLast[i]? = l[i]? := by
  have h1 : i < l.dropLast.length := by rw [List.length_dropLast]; omega
  have h2 : i < l.length := by omega
  rw [List.getElem?_eq_getElem h1, List.getElem?_eq_getElem h2]
  congr 1
  exact List.getElem_dropLast l i h1

lemma wf_empty : wellFormed emptySellPositions := by
  constructor
  · intro i h; simp [emptySellPositions] at h
  · intro t s h; simp [emptySellPositions] at h

lemma wf_uniq {sp : SellPositions} (hwf : wellFormed sp) {i j : Nat}
    (hi : i < sp.values.length) (hj : j < sp.values.length)
    (ht : (sp.values.get ⟨i, hi⟩).token = (sp.values.get ⟨j, hj⟩).token)
    (hs : (sp.values.get ⟨i, hi⟩).seller = (sp.values.get ⟨j, hj⟩).seller) : i = j := by
  have h1 := hwf.1 i hi
  have h2 := hwf.1 j hj
  rw [ht, hs] at h1
  omega

lemma getElem?_bound {α : Type} {l : List α} {i : Nat} {a : α}
    (h : l[i]? = some a) : i < l.length := by
  by_contra hc
  rw [List.getElem?_eq_none (by omega)] at h
  cases h

lemma wf_add {sp : SellPositions} {t s a p : Nat} {sp' : SellPositions}
    (hwf : wellFormed sp) (h : sp.add t s a p = some sp') : wellFormed sp' := by
  unfold SellPositions.add at h
  split at h
  · rename_i habs
    have hx := Option.some.inj h
    subst hx
    constructor
    · intro i hi
      simp only [List.get_eq_getElem, List.length_append, List.length_cons,
        List.length_nil] at hi ⊢
      by_cases hlt : i < sp.values.length
      · rw [List.getElem_append_left hlt]
        have h1 := hwf.1 i hlt
        simp only [List.get_eq_getElem] at h1
        have hkey : ¬(sp.values[i].token = t ∧ sp.values[i].seller = s) := by
          intro ⟨ht', hs'⟩
          rw [ht', hs'] at h1
          rw [h1] at habs
          cases habs
        simp only [update2]
        rw [if_neg hkey]
        exact h1
      · have hi' : i = sp.values.length := by omega
        subst hi'
        rw [List.getElem_append_right (Nat.le_refl _)]
        simp [update2]
    · intro t' s' h'
      dsimp only at h' ⊢
      by_cases hts : t' = t ∧ s' = s
      · obtain ⟨ht', hs'⟩ := hts
        rw [ht', hs']
        have hIdx : update2 sp.indices t s (sp.values.length + 1) t s =
            sp.values.length + 1 := by simp [update2]
        rw [hIdx, Nat.add_sub_cancel, List.getElem?_append_right (Nat.le_refl _),
          Nat.sub_self]
        exact ⟨_, rfl, rfl, rfl⟩
      · have hIdx : update2 sp.indices t s (sp.values.length + 1) t' s' =
            sp.indices t' s' := by
          simp only [update2]; rw [if_neg hts]
        rw [hIdx]
        rw [hIdx] at h'
        obtain ⟨pos, hpos, hkt, hks⟩ := hwf.2 t' s' h' 
        exact ⟨pos,
          by rw [List.getElem?_append_left (getElem?_bound hpos)]; exact hpos,
          hkt, hks⟩
  · cases h

lemma getElem?_to_get {α : Type} {l : List α} {i : Nat} {a : α}
    (h : l[i]? = some a) (hb : i < l.length) : l.get ⟨i, hb⟩ = a := by
  rw [List.get_eq_getElem]
  rw [List.getElem?_eq_getElem hb] at h
  exact Option.some.inj h

lemma wf_get_key {sp : SellPositions} {t s : Nat} (hwf : wellFormed sp)
    {i : Nat} (hidx : sp.indices t s = i + 1) :
    ∃ pos, sp.values[i]? = some pos ∧ pos.token = t ∧ pos.seller = s := by
  have hne : sp.indices t s ≠ 0 := by rw [hidx]; omega
  obtain ⟨pos, hpos, hkt, hks⟩ := hwf.2 t s hne
  rw [hidx, Nat.add_sub_cancel] at hpos
  exact ⟨pos, hpos, hkt, hks⟩

lemma wf_setPosition {sp : SellPositions} {t s : Nat} {pos newPos : SellPosition}
    {sp' : SellPositions} (hwf : wellFormed sp) (hget : sp.get t s = some pos)
    (htok : newPos.token = pos.token) (hsel : newPos.seller = pos.seller)
    (h : sp.setPosition t s newPos = some sp') : wellFormed sp' := by
  unfold SellPositions.get at hget
  unfold SellPositions.setPosition at h
  split at h
  · cases h
  · rename_i i hidx
    simp only [hidx] at hget
    split at h
    · rename_i hlt
      have hx := Option.some.inj h
      subst hx
      obtain ⟨pos2, hpos2, hkt, hks⟩ := wf_get_key hwf hidx
      have hpp : pos2 = pos := by
        rw [hget] at hpos2; exact (Option.some.inj hpos2).symm
      have hkt2 : pos.token = t := by rw [← hpp]; exact hkt
      have hks2 : pos.seller = s := by rw [← hpp]; exact hks
      constructor
      · intro j hj
        simp only [List.get_eq_getElem, List.length_set] at hj ⊢
        by_cases hji : j = i
        · subst hji
          rw [List.getElem_set_self]
          rw [htok, hsel, hkt2, hks2, hidx]
        · rw [List.getElem_set_ne (fun hh => hji hh.symm)]
          exact hwf.1 j (by simpa using hj)
      · intro t' s' h'
        dsimp only at h' ⊢
        obtain ⟨posJ, hposJ, hkJt, hkJs⟩ := hwf.2 t' s' h'
        by_cases hji : sp.indices t' s' - 1 = i
        · rw [hji]
          rw [hji] at hposJ
          have hJp : posJ = pos := by
            rw [hget] at hposJ; exact (Option.some.inj hposJ).symm
          subst hJp
          refine ⟨newPos, ?_, by rw [htok, hkJt], by rw [hsel, hkJs]⟩
          rw [List.getElem?_set_self hlt]
        · refine ⟨posJ, ?_, hkJt, hkJs⟩
          rw [List.getElem?_set_ne (fun hh => hji hh.symm)]
          exact hposJ
    · cases h

lemma wf_uniq2 {sp : SellPositions} (hwf : wellFormed sp) {i j : Nat}
    {p q : SellPosition} (hi : sp.values[i]? = some p) (hj : sp.values[j]? = some q)
    (ht : p.token = q.token) (hs : p.seller = q.seller) : i = j := by
  have hbi := getElem?_bound hi
  have hbj := getElem?_bound hj
  have h1 := hwf.1 i hbi
  have h2 := hwf.1 j hbj
  simp only [List.get_eq_getElem] at h1 h2
  have hpi : sp.values[i] = p := by
    rw [List.getElem?_eq_getElem hbi] at hi; exact Option.some.inj hi
  have hqj : sp.values[j] = q := by
    rw [List.getElem?_eq_getElem hbj] at hj; exact Option.some.inj hj
  rw [hpi, ht, hs] at h1
  rw [hqj] at h2
  omega

lemma wf_remove {sp : SellPositions} {t s : Nat} {sp' : SellPositions}
    (hwf : wellFormed sp) (h : sp.remove t s = some sp') : wellFormed sp' := by
  unfold SellPositions.remove at h
  split at h
  · cases h
  · cases h
  · rename_i i last hidx hlast
    split at h
    · rename_i hlt
      have hx := Option.some.inj h
      subst hx
      obtain ⟨pos, hvi, hkt, hks⟩ := wf_get_key hwf hidx
      rw [List.getLast?_eq_getElem?] at hlast
      have hn : 0 < sp.values.length := by
        have := getElem?_bound hlast; omega
      have hVlen : ((sp.values.set i last).dropLast).length = sp.values.length - 1 := by
        rw [List.length_dropLast, List.length_set]
      have hVj : ∀ j, j < sp.values.length - 1 →
          ((sp.values.set i last).dropLast)[j]? =
            if j = i then some last else sp.values[j]? := by
        intro j hj
        rw [getElem?_dropLast_of_lt _ _ (by rw [List.length_set]; omega)]
        by_cases hji : j = i
        · subst hji
          rw [if_pos rfl, List.getElem?_set_self (by omega)]
        · rw [if_neg hji, List.getElem?_set_ne (fun hh => hji hh.symm)]
      have hlastne : (last.token = t ∧ last.seller = s) → i = sp.values.length - 1 := by
        intro ⟨hlt', hls'⟩
        exact (wf_uniq2 hwf hlast hvi (by rw [hlt', hkt]) (by rw [hls', hks])).symm
      constructor
      · intro j hj
        dsimp only at hj ⊢
        have hj2 : j < sp.values.length - 1 := by rw [hVlen] at hj; exact hj
        have hvj : ((sp.values.set i last).dropLast)[j]? =
            some (((sp.values.set i last).dropLast).get ⟨j, hj⟩) := by
          rw [List.get_eq_getElem]
          exact List.getElem?_eq_getElem hj
        rw [hVj j hj2] at hvj
        by_cases hji : j = i
        · subst hji
          rw [if_pos rfl] at hvj
          have hveq := Option.some.inj hvj
          rw [← hveq]
          have hne : ¬(last.token = t ∧ last.seller = s) := by
            intro hcon
            have := hlastne hcon
            omega
          simp only [update2]
          rw [if_neg hne]
          simp
        · rw [if_neg hji] at hvj
          have hjb : j < sp.values.length := by omega
          have hvjG : sp.values[j] = ((sp.values.set i last).dropLast).get
              ⟨j, hj⟩ := by
            rw [List.getElem?_eq_getElem hjb] at hvj
            exact Option.some.inj hvj
          rw [← hvjG]
          have hkjne : ¬(sp.values[j].token = t ∧ sp.values[j].seller = s) := by
            intro ⟨h1, h2⟩
            have := wf_uniq2 hwf (List.getElem?_eq_getElem hjb) hvi
              (by rw [h1, hkt]) (by rw [h2, hks])
            exact hji this
          have hkjlast : ¬(sp.values[j].token = last.token ∧
              sp.values[j].seller = last.seller) := by
            intro ⟨h1, h2⟩
            have := wf_uniq2 hwf (List.getElem?_eq_getElem hjb) hlast h1 h2
            omega
          simp only [update2]
          rw [if_neg hkjne, if_neg hkjlast]
          have h1 := hwf.1 j hjb
          simp only [List.get_eq_getElem] at h1
          exact h1
      · intro t' s' h'
        dsimp only at h' ⊢
        by_cases hts : t' = t ∧ s' = s
        · exfalso
          apply h'
          simp only [update2]
          rw [if_pos hts]
        · by_cases htl : t' = last.token ∧ s' = last.seller
          · obtain ⟨htl1, htl2⟩ := htl
            have hIdx : update2 (update2 sp.indices last.token last.seller (i + 1))
                t s 0 t' s' = i + 1 := by
              simp only [update2]
              rw [if_neg hts, if_pos ⟨htl1, htl2⟩]
            rw [hIdx]
            have hine : i ≠ sp.values.length - 1 := by
              intro hcon
              apply hts
              have hpl : pos = last := by
                rw [hcon] at hvi
                rw [hvi] at hlast
                exact Option.some.inj hlast
              rw [htl1, htl2, ← hpl, hkt, hks]
              exact ⟨rfl, rfl⟩
            have hilt : i < sp.values.length - 1 := by omega
            refine ⟨last, ?_, htl1.symm, htl2.symm⟩
            rw [Nat.add_sub_cancel, hVj i hilt, if_pos rfl]
          · have hIdx : update2 (update2 sp.indices last.token last.seller (i + 1))
                t s 0 t' s' = sp.indices t' s' := by
              simp only [update2]
              rw [if_neg hts, if_neg htl]
            rw [hIdx] at h' ⊢
            obtain ⟨posJ, hposJ, hkJt, hkJs⟩ := hwf.2 t' s' h'
            have hjb := getElem?_bound hposJ
            have hjne : sp.indices t' s' - 1 ≠ i := by
              intro hcon
              apply hts
              rw [hcon] at hposJ
              have : posJ = pos := by
                rw [hposJ] at hvi; exact Option.some.inj hvi
              rw [← hkJt, ← hkJs, this, hkt, hks]
              exact ⟨rfl, rfl⟩
            have hjlast : sp.indices t' s' - 1 ≠ sp.values.length - 1 := by
              intro hcon
              apply htl
              rw [hcon] at hposJ
              have : posJ = last := by
                rw [hposJ] at hlast; exact Option.some.inj hlast
              rw [← hkJt, ← hkJs, this]
              exact ⟨rfl, rfl⟩
            have hjlt : sp.indices t' s' - 1 < sp.values.length - 1 := by omega
            refine ⟨posJ, ?_, hkJt, hkJs⟩
            rw [hVj _ hjlt, if_neg hjne]
            exact hposJ
    · cases h

lemma wf_applyBookOp {sp : SellPositions} (hwf : wellFormed sp) (op : BookOp) :
    wellFormed (applyBookOp sp op) := by
  cases op with
  | add t s a p =>
      unfold applyBookOp
      cases hadd : sp.add t s a p with
      | none => simpa [hadd] using hwf
      | some sp2 => simpa [hadd] using wf_add hwf hadd
  | remove t s =>
      unfold applyBookOp
      cases hrem : sp.remove t s with
      | none => simpa [hrem] using hwf
      | some sp2 => simpa [hrem] using wf_remove hwf hrem
  | setAmount t s a =>
      unfold applyBookOp
      cases hget : sp.get t s with
      | none => simpa [hget] using hwf
      | some pos =>
          cases hset : sp.setPosition t s { pos with amountTokens := a } with
          | none => simpa [hget, hset] using hwf
          | some sp2 =>
              simpa [hget, hset] using
                @wf_setPosition sp t s pos { pos with amountTokens := a } sp2
                  hwf hget rfl rfl hset
  | setPrice t s p =>
      unfold applyBookOp
      cases hget : sp.get t s with
      | none => simpa [hget] using hwf
      | some pos =>
          cases hset : sp.setPosition t s { pos with priceNanoDaiPerToken := p } with
          | none => simpa [hget, hset] using hwf
          | some sp2 =>
              simpa [hget, hset] using
                @wf_setPosition sp t s pos { pos with priceNanoDaiPerToken := p } sp2
                  hwf hget rfl rfl hset

lemma wf_applyBookOps {sp : SellPositions} (hwf : wellFormed sp) (ops : List BookOp) :
    wellFormed (ops.foldl applyBookOp sp) := by
  induction ops generalizing sp with
  | nil => exact hwf
  | cons op ops ih => exact ih (wf_applyBookOp hwf op)

/- ------------------------------------------------------------------ -/
/- Claim theorems: order book                                          -/
/- ------------------------------------------------------------------ -/

/-- Claim C8: starting from the empty `SellPositions` structure, any
sequence of order-book operations (`add`, swap-with-last `remove`, and
the in-place amount/price updates the market performs) maintains the
index invariant: `indices token seller` is nonzero exactly when a live
position with that key sits in the `values` array, and when nonzero,
`values[indices token seller - 1]` is exactly that position. -/
theorem sellPositions_index_invariant (ops : List BookOp) :
    (∀ t s, (applyBookOps emptySellPositions ops).indices t s ≠ 0 ↔
        ∃ i, ∃ h : i < (applyBookOps emptySellPositions ops).values.length,
          ((applyBookOps emptySellPositions ops).values.get ⟨i, h⟩).token = t ∧
            ((applyBookOps emptySellPositions ops).values.get ⟨i, h⟩).seller = s) ∧
      (∀ t s, (applyBookOps emptySellPositions ops).indices t s ≠ 0 →
        ∃ pos,
          (applyBookOps emptySellPositions ops).values[
              (applyBookOps emptySellPositions ops).indices t s - 1]? = some pos ∧
            pos.token = t ∧ pos.seller = s) := by
  have hwf : wellFormed (applyBookOps emptySellPositions ops) :=
    wf_applyBookOps wf_empty ops
  refine ⟨fun t s => ⟨fun h => ?_, fun h => ?_⟩, hwf.2⟩
  · obtain ⟨pos, hpos, hkt, hks⟩ := hwf.2 t s h
    have hb := getElem?_bound hpos
    refine ⟨_, hb, ?_, ?_⟩
    · rw [getElem?_to_get hpos hb, hkt]
    · rw [getElem?_to_get hpos hb, hks]
  · obtain ⟨i, hb, hkt, hks⟩ := h
    have h1 := hwf.1 i hb
    rw [hkt, hks] at h1
    rw [h1]
    omega

/-- Witness for claim C8's theorem: after a concrete `add`, the index
entry of the added pair points at its position. -/
theorem sellPositions_index_invariant_witness :
    ∃ pos,
      (applyBookOps emptySellPositions [BookOp.add 1 2 5 60]).values[
          (applyBookOps emptySellPositions [BookOp.add 1 2 5 60]).indices 1 2 - 1]? =
        some pos ∧ pos.token = 1 ∧ pos.seller = 2 :=
  (sellPositions_index_invariant [BookOp.add 1 2 5 60]).2 1 2 (by decide)

/- ------------------------------------------------------------------ -/
/- Helper lemmas: market operations                                    -/
/- ------------------------------------------------------------------ -/

lemma remove_isSome_of_get {sp : SellPositions} {t s : Nat} {pos : SellPosition}
    (hget : sp.get t s = some pos) : ∃ sp2, sp.remove t s = some sp2 := by
  unfold SellPositions.get at hget
  split at hget
  · cases hget
  · rename_i i hidx
    have hb := getElem?_bound hget
    unfold SellPositions.remove
    simp only [hidx]
    rw [List.getLast?_eq_getElem?, List.getElem?_eq_getElem (by omega)]
    dsimp only
    rw [if_pos hb]
    exact ⟨_, rfl⟩

lemma existsKey_of_get {sp : SellPositions} {t s : Nat} {pos : SellPosition}
    (hget : sp.get t s = some pos) : sp.existsKey t s = true := by
  unfold SellPositions.get at hget
  unfold SellPositions.existsKey
  split at hget
  · cases hget
  · rename_i i hidx
    rw [hidx]
    simp

lemma removeSellPosition_ok {st : MarketState} {sender token : Nat} {pos : SellPosition}
    (hget : st.sellPositions.get token sender = some pos)
    (hbal : pos.amountTokens ≤ st.tokenBalance token st.marketAddr) :
    isOkB (removeSellPosition st sender token) = true := by
  unfold removeSellPosition
  rw [existsKey_of_get hget]
  simp only [Bool.true_eq_false, if_false, hget]
  obtain ⟨sp2, hrem⟩ := remove_isSome_of_get hget
  rw [hrem]
  unfold transferToken moveBalance
  dsimp only
  rw [if_pos hbal]
  rfl

/-- Claim C10: for an existing sell position whose token has been removed
from the market's allow-set, all of `increaseSellPositionAmount`,
`decreaseSellPositionAmount`, `updateSellPositionPrice` and `purchase`
fail with the token-not-allowed error (changing nothing), while
`removeSellPosition` still succeeds, so the seller's only exit is a full
removal. -/
theorem delisted_token_operations (st : MarketState) (token seller : Nat)
    (pos : SellPosition)
    (hallow : st.tokenIsAllowed token = false)
    (hget : st.sellPositions.get token seller = some pos)
    (hbal : pos.amountTokens ≤ st.tokenBalance token st.marketAddr) :
    (∀ d, increaseSellPositionAmount st seller token d =
        Except.error MarketError.TokenNotAllowed) ∧
      (∀ d, decreaseSellPositionAmount st seller token d =
        Except.error MarketError.TokenNotAllowed) ∧
      (∀ p, updateSellPositionPrice st seller token p =
        Except.error MarketError.TokenNotAllowed) ∧
      (∀ buyer amt price fee, purchase st buyer token seller amt price fee =
        Except.error MarketError.TokenNotAllowed) ∧
      isOkB (removeSellPosition st seller token) = true := by
  refine ⟨fun d => ?_, fun d => ?_, fun p => ?_, fun buyer amt price fee => ?_,
    removeSellPosition_ok hget hbal⟩
  · simp [increaseSellPositionAmount, hallow]
  · simp [decreaseSellPositionAmount, hallow]
  · simp [updateSellPositionPrice, hallow]
  · simp [purchase, hallow]

/-- Witness for claim C10's theorem on a concrete delisted market
state. -/
theorem delisted_token_operations_witness :
    decreaseSellPositionAmount mktStateB 2 1 50 =
        Except.error MarketError.TokenNotAllowed ∧
      isOkB (removeSellPosition mktStateB 2 1) = true :=
  ⟨(delisted_token_operations mktStateB 1 2
      { token := 1, seller := 2, amountTokens := 50,
        priceNanoDaiPerToken := 60 * 10 ^ 9 }
      rfl (by decide) (by decide)).2.1 50,
   (delisted_token_operations mktStateB 1 2
      { token := 1, seller := 2, amountTokens := 50,
        priceNanoDaiPerToken := 60 * 10 ^ 9 }
      rfl (by decide) (by decide)).2.2.2.2⟩

/-- Claim C5 (amended): a purchase of an existing position (allowed
token, valid positive amount within the listed amount) whose supplied
price is a positive multiple of `10^9` atto-Dai but differs from the
position's current price, or whose supplied fee rate differs from the
market's current fee rate, fails with `PriceOrFeeMismatch` and changes
no state.  (A supplied price that differs by an amount that makes it no
longer a positive multiple of `10^9` — e.g. one atto-Dai — is instead
rejected earlier with `InvalidAmount`.) -/
theorem purchase_mismatch_rejected (st : MarketState)
    (buyer token seller amt price fee : Nat) (pos : SellPosition)
    (hallow : st.tokenIsAllowed token = true)
    (hget : st.sellPositions.get token seller = some pos)
    (hamt0 : 0 < amt) (hamt : amt ≤ pos.amountTokens)
    (hprice : 0 < price ∧ price % 10 ^ 9 = 0)
    (hmis : price / 10 ^ 9 ≠ pos.priceNanoDaiPerToken ∨
      fee ≠ st.feeAttoDaiPerNanoDai) :
    purchase st buyer token seller amt price fee =
      Except.error MarketError.PriceOrFeeMismatch := by
  unfold purchase
  rw [hallow]
  rw [if_neg (by simp)]
  rw [if_neg (Nat.pos_iff_ne_zero.mp hamt0)]
  rw [existsKey_of_get hget]
  rw [if_neg (by simp)]
  rw [attoDaiToPositiveWholeNanoDai, if_pos hprice]
  dsimp only
  rw [hget]
  dsimp only
  rw [if_neg (Nat.not_lt.mpr hamt)]
  by_cases hpm : price / 10 ^ 9 = pos.priceNanoDaiPerToken
  · have hfee : fee ≠ st.feeAttoDaiPerNanoDai := by
      rcases hmis with h | h
      · exact absurd hpm h
      · exact h
    rw [if_neg (by simpa using hpm)]
    rw [if_pos hfee]
  · rw [if_pos hpm]

/-- Witness for claim C5's theorem: a price one nano-Dai above the
listed price is rejected with `PriceOrFeeMismatch`. -/
theorem purchase_mismatch_rejected_witness :
    purchase mktStateA 3 1 2 5 (60 * 10 ^ 18 + 10 ^ 9) (10 ^ 8) =
      Except.error MarketError.PriceOrFeeMismatch :=
  purchase_mismatch_rejected mktStateA 3 1 2 5 (60 * 10 ^ 18 + 10 ^ 9) (10 ^ 8)
    { token := 1, seller := 2, amountTokens := 50,
      priceNanoDaiPerToken := 60 * 10 ^ 9 }
    rfl (by decide) (by decide) (by decide) (by decide) (Or.inl (by decide))

/-- Claim C5 counterexample: a supplied price one atto-Dai above the
listed price is not a positive multiple of one nano-Dai, so the purchase
fails with `InvalidAmount`, not with `PriceOrFeeMismatch` as claimed. -/
theorem purchase_one_atto_off_cex :
    purchase mktStateA 3 1 2 5 (60 * 10 ^ 18 + 1) (10 ^ 8) =
        Except.error MarketError.InvalidAmount ∧
      MarketError.InvalidAmount ≠ MarketError.PriceOrFeeMismatch :=
  ⟨rfl, by decide⟩

lemma transferDai_spec {st st' : MarketState} {src dst amt : Nat}
    (h : transferDai st src dst amt = Except.ok st') :
    amt ≤ st.daiBalance src ∧
      st' = { st with
                daiBalance :=
                  update1 (update1 st.daiBalance src (st.daiBalance src - amt)) dst
                    (update1 st.daiBalance src (st.daiBalance src - amt) dst + amt) } := by
  unfold transferDai moveBalance at h
  split at h
  · cases h
  · rename_i f hf
    split at hf
    · refine ⟨by assumption, ?_⟩
      have hx := Except.ok.inj h
      have hy := Except.ok.inj hf
      rw [← hx, ← hy]
    · cases hf

lemma transferToken_spec {st st' : MarketState} {token src dst amt : Nat}
    (h : transferToken st token src dst amt = Except.ok st') :
    amt ≤ st.tokenBalance token src ∧
      st' = { st with
                tokenBalance := fun t =>
                  if t = token then
                    update1 (update1 (st.tokenBalance token) src
                        (st.tokenBalance token src - amt)) dst
                      (update1 (st.tokenBalance token) src
                          (st.tokenBalance token src - amt) dst + amt)
                  else st.tokenBalance t } := by
  unfold transferToken moveBalance at h
  split at h
  · cases h
  · rename_i f hf
    split at hf
    · refine ⟨by assumption, ?_⟩
      have hx := Except.ok.inj h
      have hy := Except.ok.inj hf
      rw [← hx, ← hy]
    · cases hf

lemma get_after_setPosition {sp sp' : SellPositions} {t s : Nat} {p : SellPosition}
    (h : sp.setPosition t s p = some sp') : sp'.get t s = some p := by
  unfold SellPositions.setPosition at h
  split at h
  · cases h
  · rename_i i hidx
    split at h
    · rename_i hlt
      have hx := Option.some.inj h
      subst hx
      unfold SellPositions.get
      dsimp only
      rw [hidx]
      dsimp only
      rw [List.getElem?_set_self hlt]
    · cases h

lemma get_after_remove {sp sp' : SellPositions} {t s : Nat}
    (h : sp.remove t s = some sp') : sp'.get t s = none := by
  unfold SellPositions.remove at h
  split at h
  · cases h
  · cases h
  · rename_i i last hidx hlast
    split at h
    · have hx := Option.some.inj h
      subst hx
      unfold SellPositions.get
      dsimp only
      simp [update2]
    · cases h

/-- Claim C6: a successful purchase of `amt` tokens at matching price and
fee rate decreases the position's amount by `amt` (removing it when it
reaches zero), pays the seller exactly `price * amt` atto-Dai from the
buyer, pays the fee recipient exactly
`feeRate * (price * amt / 10^9)` atto-Dai from the buyer, and moves
`amt` tokens from the market escrow to the buyer.  Stated for pairwise
distinct buyer, seller, fee-recipient and market addresses. -/
theorem purchase_success_effects (st st' : MarketState)
    (buyer token seller amt price fee : Nat) (pos : SellPosition)
    (hget : st.sellPositions.get token seller = some pos)
    (hd1 : buyer ≠ seller) (hd2 : buyer ≠ st.feeRecipient)
    (hd3 : seller ≠ st.feeRecipient) (hd4 : buyer ≠ st.marketAddr)
    (h : purchase st buyer token seller amt price fee = Except.ok st') :
    fee = st.feeAttoDaiPerNanoDai ∧
      amt ≤ pos.amountTokens ∧
      st'.sellPositions.get token seller =
        (if amt < pos.amountTokens then
            some { pos with amountTokens := pos.amountTokens - amt }
          else none) ∧
      st'.daiBalance seller = st.daiBalance seller + price * amt ∧
      st'.daiBalance st.feeRecipient = st.daiBalance st.feeRecipient +
        st.feeAttoDaiPerNanoDai * (price * amt / 10 ^ 9) ∧
      st'.daiBalance buyer = st.daiBalance buyer - price * amt -
        st.feeAttoDaiPerNanoDai * (price * amt / 10 ^ 9) ∧
      st'.tokenBalance token buyer = st.tokenBalance token buyer + amt ∧
      st'.tokenBalance token st.marketAddr =
        st.tokenBalance token st.marketAddr - amt := by
  simp only [purchase] at h
  split at h
  · cases h
  split at h
  · cases h
  split at h
  · cases h
  split at h
  · cases h
  rename_i priceNano hconv
  split at h
  · cases h
  rename_i pos2 hget2
  have hpos2 : pos2 = pos := by
    rw [hget2] at hget; exact Option.some.inj hget
  subst hpos2
  split at h
  · cases h
  rename_i hle
  split at h
  · cases h
  rename_i hpeq
  split at h
  · cases h
  rename_i hfeq
  split at h
  · cases h
  rename_i sp1 hset
  split at h
  · cases h
  rename_i sp2 hsp2
  cases htr1 : transferDai { st with sellPositions := sp2 } buyer seller
      (price * amt) with
  | error e => rw [htr1] at h; cases h
  | ok stA =>
      rw [htr1] at h
      dsimp only at h
      obtain ⟨hb1, hstA⟩ := transferDai_spec htr1
      cases htr2 : transferDai stA buyer stA.feeRecipient
          (st.feeAttoDaiPerNanoDai * (price * amt / 10 ^ 9)) with
      | error e => rw [htr2] at h; cases h
      | ok stB =>
          rw [htr2] at h
          dsimp only at h
          obtain ⟨hb2, hstB⟩ := transferDai_spec htr2
          obtain ⟨hb3, hstC⟩ := transferToken_spec h
          have hfee : fee = st.feeAttoDaiPerNanoDai := by
            by_contra hc
            exact hfeq hc
          have hamt : amt ≤ pos2.amountTokens := Nat.not_lt.mp hle
          refine ⟨hfee, hamt, ?_, ?_, ?_, ?_, ?_, ?_⟩
          · rw [hstC, hstB, hstA]
            dsimp only
            split at hsp2
            · rename_i hzero
              have hrem := get_after_remove (by
                have := hsp2; exact this)
              have hlt2 : ¬ amt < pos2.amountTokens := by omega
              rw [if_neg hlt2]
              exact hrem
            · rename_i hnz
              have hsp21 : sp1 = sp2 := Option.some.inj hsp2
              subst hsp21
              have hgot := get_after_setPosition hset
              have hlt2 : amt < pos2.amountTokens := by omega
              rw [if_pos hlt2]
              exact hgot
          · rw [hstC, hstB, hstA]
            simp [update1, hd1, Ne.symm hd1, hd2, Ne.symm hd2, hd3, Ne.symm hd3,
              hd4, Ne.symm hd4]
          · rw [hstC, hstB, hstA]
            simp [update1, hd1, Ne.symm hd1, hd2, Ne.symm hd2, hd3, Ne.symm hd3,
              hd4, Ne.symm hd4]
          · rw [hstC, hstB, hstA]
            simp [update1, hd1, Ne.symm hd1, hd2, Ne.symm hd2, hd3, Ne.symm hd3,
              hd4, Ne.symm hd4]
          · rw [hstC, hstB, hstA]
            simp [update1, hd1, Ne.symm hd1, hd2, Ne.symm hd2, hd3, Ne.symm hd3,
              hd4, Ne.symm hd4]
          · rw [hstC, hstB, hstA]
            simp [update1, hd1, Ne.symm hd1, hd2, Ne.symm hd2, hd3, Ne.symm hd3,
              hd4, Ne.symm hd4]

/-- Witness for claim C6's theorem: the spec's scenario (50 tokens listed
at 60 Dai each, 10 percent fee) — buying 5 tokens leaves 45 listed, pays
the seller 300 Dai, pays the fee recipient 30 Dai, and gives the buyer 5
tokens. -/
theorem purchase_success_effects_witness :
    purchaseResultA.sellPositions.get 1 2 =
        some { token := 1, seller := 2, amountTokens := 45,
               priceNanoDaiPerToken := 60 * 10 ^ 9 } ∧
      purchaseResultA.daiBalance 2 = 300 * 10 ^ 18 ∧
      purchaseResultA.daiBalance 11 = 30 * 10 ^ 18 ∧
      purchaseResultA.tokenBalance 1 3 = 5 := by
  have heq : purchase mktStateA 3 1 2 5 (60 * 10 ^ 18) (10 ^ 8) =
      Except.ok purchaseResultA := rfl
  have h := purchase_success_effects mktStateA purchaseResultA 3 1 2 5
    (60 * 10 ^ 18) (10 ^ 8)
    { token := 1, seller := 2, amountTokens := 50,
      priceNanoDaiPerToken := 60 * 10 ^ 9 }
    (by decide) (by decide) (by decide) (by decide) (by decide) heq
  exact ⟨(h.2.2.1).trans (by decide), (h.2.2.2.1).trans (by decide),
    (h.2.2.2.2.1).trans (by decide), (h.2.2.2.2.2.2.1).trans (by decide)⟩

lemma dropLast_set_last {α : Type} (l : List α) (a : α) :
    (l.set (l.length - 1) a).dropLast = l.dropLast := by
  apply List.ext_getElem
  · rw [List.length_dropLast, List.length_set, List.length_dropLast]
  · intro i h1 h2
    rw [List.getElem_dropLast, List.getElem_dropLast, List.getElem_set_ne]
    rw [List.length_dropLast, List.length_set] at h1
    omega

lemma setPosition_isSome_of_get {sp : SellPositions} {t s : Nat} {pos : SellPosition}
    (p : SellPosition) (hget : sp.get t s = some pos) :
    ∃ sp1, sp.setPosition t s p = some sp1 := by
  unfold SellPositions.get at hget
  split at hget
  · cases hget
  · rename_i i hidx
    have hb := getElem?_bound hget
    unfold SellPositions.setPosition
    simp only [hidx]
    rw [if_pos hb]
    exact ⟨_, rfl⟩

lemma remove_after_zero_set {sp sp1 : SellPositions} {t s : Nat}
    {pos pos0 : SellPosition}
    (hget : sp.get t s = some pos) (htok : pos0.token = pos.token)
    (hsel : pos0.seller = pos.seller) (hset : sp.setPosition t s pos0 = some sp1) :
    sp1.remove t s = sp.remove t s := by
  unfold SellPositions.setPosition at hset
  split at hset
  · cases hset
  · rename_i i hidx
    split at hset
    · rename_i hlt
      have hx := Option.some.inj hset
      subst hx
      unfold SellPositions.get at hget
      simp only [hidx] at hget
      unfold SellPositions.remove
      dsimp only
      simp only [hidx]
      rw [List.getLast?_eq_getElem?, List.getLast?_eq_getElem?, List.length_set]
      by_cases hco : i = sp.values.length - 1
      · rw [← hco, List.getElem?_set_self hlt, hget]
        dsimp only
        rw [if_pos hlt, if_pos hlt]
        rw [List.set_set, hco, dropLast_set_last, dropLast_set_last]
        rw [htok, hsel]
      · rw [List.getElem?_set_ne (fun hh => hco hh)]
        rw [List.getElem?_eq_getElem (by omega)]
        dsimp only
        rw [if_pos hlt, if_pos hlt]
        rw [List.set_set]
    · cases hset

/-- Claim C4 (amended): for a sell position whose token is still allowed
by the market, the seller decreasing the position by exactly its current
(positive) amount is identical to removing it: the same resulting
market state, with the position gone and the full escrowed amount
returned.  (For a delisted token the two differ: decrease fails on the
allow-set check while remove succeeds.) -/
theorem decrease_all_eq_remove (st : MarketState) (token seller : Nat)
    (pos : SellPosition)
    (hallow : st.tokenIsAllowed token = true)
    (hget : st.sellPositions.get token seller = some pos)
    (hamt : 0 < pos.amountTokens) :
    decreaseSellPositionAmount st seller token pos.amountTokens =
      removeSellPosition st seller token := by
  have hex := existsKey_of_get hget
  obtain ⟨sp1, hset⟩ :=
    setPosition_isSome_of_get { pos with amountTokens := 0 } hget
  have hrem_eq := @remove_after_zero_set st.sellPositions sp1 token seller pos
    { pos with amountTokens := 0 } hget rfl rfl hset
  obtain ⟨sp2, hrem⟩ := remove_isSome_of_get hget
  unfold decreaseSellPositionAmount removeSellPosition
  rw [hallow, hex, hget]
  simp only [Nat.sub_self] at *
  rw [hset]
  simp [Nat.pos_iff_ne_zero.mp hamt, hrem_eq, hrem]

/-- Witness for claim C4's theorem on a concrete allowed-token market
state: decreasing by the full 50 tokens equals removing the position. -/
theorem decrease_all_eq_remove_witness :
    decreaseSellPositionAmount mktStateA 2 1 50 = removeSellPosition mktStateA 2 1 :=
  decrease_all_eq_remove mktStateA 1 2
    { token := 1, seller := 2, amountTokens := 50,
      priceNanoDaiPerToken := 60 * 10 ^ 9 }
    rfl (by decide) (by decide)

/-- Claim C4 counterexample: for a position whose token was removed from
the allow-set, decreasing by the full amount fails (allow-set check)
while removing succeeds, so the two operations are not identical for
every market state containing a position. -/
theorem decrease_vs_remove_delisted_cex :
    decreaseSellPositionAmount mktStateB 2 1 50 =
        Except.error MarketError.TokenNotAllowed ∧
      isOkB (removeSellPosition mktStateB 2 1) = true ∧
      decreaseSellPositionAmount mktStateB 2 1 50 ≠ removeSellPosition mktStateB 2 1 := by
  refine ⟨rfl, rfl, ?_⟩
  intro hcon
  have h1 : isOkB (decreaseSellPositionAmount mktStateB 2 1 50) = false := rfl
  rw [hcon] at h1
  have h2 : isOkB (removeSellPosition mktStateB 2 1) = true := rfl
  rw [h1] at h2
  cases h2
